import Mathlib

/-!
# SME-portal backend: shallow embedding and verification

This file embeds the pipeline-orchestration and defensive-parsing core of
the SME-portal Express backend (`backend/server.js`, schema in
`backend/db/init.js`) as executable Lean definitions and proves the spec's
claims about it.

Embedded pieces:
* `parseJsonArray` — the fence-stripping, bracket-scanning JSON array
  extractor (server.js lines 113–119), over a from-scratch model of
  `JSON.parse` (ECMA-404 grammar, values kept as a syntax tree).
* `extractHtmlDocument` — the HTML cleanup inside the build-website
  handler (lines 294–298).
* The deploy slug (line 377) and the download filename slug (line 358).
* A relational-state model of the websites/smes tables and the
  build-website and deploy handlers, including their upsert SQL.
* The two-turn conversational search driver (`searchSMEsWithWebSearch`,
  lines 28–111).

Strings are modelled as `List Char` where character-level work happens;
JavaScript's regex replaces are modelled by recursive functions that follow
the regex engine's leftmost-alternative, leftmost-match scan.
-/

namespace SMEPortal

/-! ## JSON values and a model of `JSON.parse`

`JSON.parse` is modelled by a recursive-descent parser over the ECMA-404
grammar. Numbers are kept as their lexeme: no claim depends on numeric
value, only on grammatical acceptance and on the shape of the result. -/

/-- A parsed JSON value. -/
inductive JsValue where
  | null
  | bool (b : Bool)
  | num (lexeme : String)
  | str (s : String)
  | arr (elems : List JsValue)
  | obj (members : List (String × JsValue))

/-- JSON insignificant whitespace (ECMA-404): space, tab, LF, CR. -/
def isJsonWs (c : Char) : Bool :=
  c == ' ' || c == '\t' || c == '\n' || c == '\r'

/-- Skip JSON whitespace. -/
def skipWs (cs : List Char) : List Char := cs.dropWhile isJsonWs

/-- Hex digit value, `none` if not a hex digit. -/
def hexVal (c : Char) : Option Nat :=
  if '0' ≤ c ∧ c ≤ '9' then some (c.toNat - '0'.toNat)
  else if 'a' ≤ c ∧ c ≤ 'f' then some (c.toNat - 'a'.toNat + 10)
  else if 'A' ≤ c ∧ c ≤ 'F' then some (c.toNat - 'A'.toNat + 10)
  else none

/-- Parse the body of a JSON string after the opening quote: returns the
decoded characters and the remainder after the closing quote. Escapes
follow ECMA-404; unescaped control characters below U+0020 are rejected. -/
def parseStringBody : List Char → Option (List Char × List Char)
  | [] => none
  | '"' :: rest => some ([], rest)
  | '\\' :: esc :: rest =>
    match esc, rest with
    | '"', r => (parseStringBody r).map (fun p => ('"' :: p.1, p.2))
    | '\\', r => (parseStringBody r).map (fun p => ('\\' :: p.1, p.2))
    | '/', r => (parseStringBody r).map (fun p => ('/' :: p.1, p.2))
    | 'b', r => (parseStringBody r).map (fun p => ('\x08' :: p.1, p.2))
    | 'f', r => (parseStringBody r).map (fun p => ('\x0c' :: p.1, p.2))
    | 'n', r => (parseStringBody r).map (fun p => ('\n' :: p.1, p.2))
    | 'r', r => (parseStringBody r).map (fun p => ('\r' :: p.1, p.2))
    | 't', r => (parseStringBody r).map (fun p => ('\t' :: p.1, p.2))
    | 'u', h1 :: h2 :: h3 :: h4 :: r =>
      match hexVal h1, hexVal h2, hexVal h3, hexVal h4 with
      | some a, some b, some c, some d =>
        (parseStringBody r).map
          (fun p => (Char.ofNat (((a * 16 + b) * 16 + c) * 16 + d) :: p.1, p.2))
      | _, _, _, _ => none
    | _, _ => none
  | c :: rest =>
    if c.toNat < 0x20 then none
    else (parseStringBody rest).map (fun p => (c :: p.1, p.2))

/-- ASCII decimal digit. -/
def isDigitCh (c : Char) : Bool := decide ('0' ≤ c ∧ c ≤ '9')

/-- Parse a JSON number lexeme (`-? int frac? exp?`): returns the lexeme
characters and the remainder. -/
def parseNumberLex (cs : List Char) : Option (List Char × List Char) :=
  let (sign, afterSign) :=
    match cs with
    | '-' :: rest => (['-'], rest)
    | _ => ([], cs)
  match afterSign with
  | [] => none
  | c :: rest =>
    if ¬ isDigitCh c then none
    else
      -- integer part: '0' alone, or a nonzero digit followed by digits
      let (intDigits, afterInt) :=
        if c = '0' then ([c], rest)
        else
          let more := rest.takeWhile isDigitCh
          (c :: more, rest.dropWhile isDigitCh)
      let fracParse : Option (List Char × List Char) :=
        match afterInt with
        | '.' :: d :: r2 =>
          if isDigitCh d then
            some ('.' :: d :: r2.takeWhile isDigitCh, r2.dropWhile isDigitCh)
          else none
        | '.' :: [] => none
        | _ => some ([], afterInt)
      match fracParse with
      | none => none
      | some (fracDigits, afterFrac) =>
        let (expDigits, afterExp) :=
          match afterFrac with
          | e :: r2 =>
            if e = 'e' ∨ e = 'E' then
              match r2 with
              | s :: d :: r3 =>
                if (s = '+' ∨ s = '-') ∧ isDigitCh d then
                  (e :: s :: d :: r3.takeWhile isDigitCh, r3.dropWhile isDigitCh)
                else if isDigitCh s then
                  (e :: s :: (d :: r3).takeWhile isDigitCh, (d :: r3).dropWhile isDigitCh)
                else ([], afterFrac)
              | [s] =>
                if isDigitCh s then (e :: [s], []) else ([], afterFrac)
              | [] => ([], afterFrac)
            else ([], afterFrac)
          | [] => ([], afterFrac)
        some (sign ++ intDigits ++ fracDigits ++ expDigits, afterExp)

mutual

/-- Recursive-descent JSON value parser. `fuel` bounds recursion depth; the
top-level entry point supplies enough fuel for any input. Expects its input
to start directly at the value (no leading whitespace). -/
def parseValue : Nat → List Char → Option (JsValue × List Char)
  | 0, _ => none
  | _ + 1, [] => none
  | fuel + 1, c :: rest =>
    if c = '[' then
      match skipWs rest with
      | ']' :: r2 => some (.arr [], r2)
      | r1 => (parseElems fuel r1).map (fun p => (.arr p.1, p.2))
    else if c = '{' then
      match skipWs rest with
      | '}' :: r2 => some (.obj [], r2)
      | r1 => (parseMembers fuel r1).map (fun p => (.obj p.1, p.2))
    else if c = '"' then
      (parseStringBody rest).map (fun p => (.str ⟨p.1⟩, p.2))
    else if c = 'n' then
      match rest with
      | 'u' :: 'l' :: 'l' :: r => some (.null, r)
      | _ => none
    else if c = 't' then
      match rest with
      | 'r' :: 'u' :: 'e' :: r => some (.bool true, r)
      | _ => none
    else if c = 'f' then
      match rest with
      | 'a' :: 'l' :: 's' :: 'e' :: r => some (.bool false, r)
      | _ => none
    else
      (parseNumberLex (c :: rest)).map (fun p => (.num ⟨p.1⟩, p.2))

/-- Parse a nonempty comma-separated element list of an array, consuming
the closing `]`. Expects its input whitespace-skipped. -/
def parseElems : Nat → List Char → Option (List JsValue × List Char)
  | 0, _ => none
  | fuel + 1, cs =>
    match parseValue fuel cs with
    | none => none
    | some (v, r) =>
      match skipWs r with
      | ',' :: r2 => (parseElems fuel (skipWs r2)).map (fun p => (v :: p.1, p.2))
      | ']' :: r2 => some ([v], r2)
      | _ => none

/-- Parse a nonempty member list of an object, consuming the closing `}`.
Expects its input whitespace-skipped. -/
def parseMembers : Nat → List Char → Option (List (String × JsValue) × List Char)
  | 0, _ => none
  | fuel + 1, cs =>
    match cs with
    | '"' :: rest =>
      match parseStringBody rest with
      | none => none
      | some (k, r) =>
        match skipWs r with
        | ':' :: r2 =>
          match parseValue fuel (skipWs r2) with
          | none => none
          | some (v, r3) =>
            match skipWs r3 with
            | ',' :: r4 =>
              (parseMembers fuel (skipWs r4)).map (fun p => ((⟨k⟩, v) :: p.1, p.2))
            | '}' :: r4 => some ([(⟨k⟩, v)], r4)
            | _ => none
        | _ => none
    | _ => none

end

/-- Model of `JSON.parse` on a character list: a single JSON value
surrounded by optional whitespace; `none` models a thrown `SyntaxError`. -/
def jsonParse (cs : List Char) : Option JsValue :=
  let body := skipWs cs
  match parseValue (2 * body.length + 2) body with
  | some (v, rest) => if skipWs rest = [] then some v else none
  | none => none

/-! ## `parseJsonArray` (server.js 113–119)

```js
function parseJsonArray(text) {
  const cleaned = text.replace(/```json\n?|\n?```/g, '').replace(/```\n?/g, '').trim();
  const start = cleaned.indexOf('[');
  const end = cleaned.lastIndexOf(']');
  if (start === -1 || end === -1) throw new Error('Could not find JSON array in response');
  return JSON.parse(cleaned.slice(start, end + 1));
}
```

The two global regex replaces are modelled by left-to-right scans that, at
each position, try the regex's alternatives in order (a backtick fence
tagged `json` with optional trailing newline; then an optional newline
followed by a bare fence) and resume after a match, exactly as the regex
engine does. -/

/-- First replace: `/```json\n?|\n?```/g` with `''`. Pattern priority at
each position: ```` ```json ```` + optional `'\n'`, then `'\n'`-prefixed or
bare ```` ``` ````. -/
def stripFence1 : List Char → List Char
  | '`' :: '`' :: '`' :: 'j' :: 's' :: 'o' :: 'n' :: '\n' :: rest => stripFence1 rest
  | '`' :: '`' :: '`' :: 'j' :: 's' :: 'o' :: 'n' :: rest => stripFence1 rest
  | '\n' :: '`' :: '`' :: '`' :: rest => stripFence1 rest
  | '`' :: '`' :: '`' :: rest => stripFence1 rest
  | c :: rest => c :: stripFence1 rest
  | [] => []

/-- Second replace: `/```\n?/g` with `''`. -/
def stripFence2 : List Char → List Char
  | '`' :: '`' :: '`' :: '\n' :: rest => stripFence2 rest
  | '`' :: '`' :: '`' :: rest => stripFence2 rest
  | c :: rest => c :: stripFence2 rest
  | [] => []

/-- The characters removed by JavaScript `String.prototype.trim`:
ECMAScript WhiteSpace and LineTerminator code points (the ASCII ones plus
NBSP, BOM, LS, PS; other Unicode `Zs` spaces omitted as they never arise
here). -/
def isJsTrimWs (c : Char) : Bool :=
  c == ' ' || c == '\t' || c == '\n' || c == '\r' || c == '\x0b' ||
  c == '\x0c' || c == Char.ofNat 0xa0 || c == Char.ofNat 0xfeff ||
  c == Char.ofNat 0x2028 || c == Char.ofNat 0x2029

/-- Model of `String.prototype.trim`. -/
def jsTrim (cs : List Char) : List Char :=
  ((cs.dropWhile isJsTrimWs).reverse.dropWhile isJsTrimWs).reverse

/-- `String.prototype.indexOf` for a single character: position of its
first occurrence. -/
def firstIdxOf (c : Char) : List Char → Option Nat
  | [] => none
  | d :: rest => if d = c then some 0 else (firstIdxOf c rest).map (· + 1)

/-- `String.prototype.lastIndexOf` for a single character: position of its
last occurrence (the first occurrence in the reversed text, re-indexed). -/
def lastIdxOf (c : Char) (cs : List Char) : Option Nat :=
  (firstIdxOf c cs.reverse).map (fun i => cs.length - 1 - i)

/-- The fence-stripped, trimmed text `parseJsonArray` scans. -/
def cleanedText (text : String) : List Char :=
  jsTrim (stripFence2 (stripFence1 text.data))

/-- `parseJsonArray` (server.js 113–119). `none` models the thrown
`Error`/`SyntaxError`; `cleaned.slice(start, end + 1)` is
`(cleaned.drop start).take (end + 1 - start)`. -/
def parseJsonArray (text : String) : Option JsValue :=
  let cleaned := cleanedText text
  match firstIdxOf '[' cleaned, lastIdxOf ']' cleaned with
  | some s, some e => jsonParse ((cleaned.drop s).take (e + 1 - s))
  | _, _ => none

/-! ## `extractHtmlDocument` (server.js 294–298)

```js
html = html.replace(/^```html?\n?/i, '').replace(/^```\n?/, '')
           .replace(/\n?```$/, '').trim();
if (!html.toLowerCase().startsWith('<!doctype') &&
    !html.toLowerCase().startsWith('<html')) {
  const start = html.indexOf('<!DOCTYPE');
  if (start > -1) html = html.slice(start);
}
```

The three replaces are anchored, non-global, so each removes at most one
match. `toLowerCase` is modelled character-wise with ASCII lowering, which
agrees with JavaScript on ASCII input. -/

/-- ASCII-case-insensitive character comparison (the `/i` flag). -/
def lcEq (c d : Char) : Bool := c.toLower == d.toLower

/-- First replace: `/^```html?\n?/i` with `''` — a leading fence tagged
`htm` or `html` in any case, with optional trailing newline. -/
def stripLeadFenceHtml (cs : List Char) : List Char :=
  match cs with
  | '`' :: '`' :: '`' :: c1 :: c2 :: c3 :: rest =>
    if lcEq c1 'h' && lcEq c2 't' && lcEq c3 'm' then
      match rest with
      | c4 :: rest2 =>
        if lcEq c4 'l' then
          match rest2 with
          | '\n' :: r => r
          | _ => rest2
        else if c4 = '\n' then rest2
        else rest
      | [] => []
    else cs
  | _ => cs

/-- Second replace: `/^```\n?/` with `''`. -/
def stripLeadFencePlain (cs : List Char) : List Char :=
  match cs with
  | '`' :: '`' :: '`' :: '\n' :: rest => rest
  | '`' :: '`' :: '`' :: rest => rest
  | _ => cs

/-- Third replace: `/\n?```$/` with `''`. -/
def stripTrailFence (cs : List Char) : List Char :=
  match cs.reverse with
  | '`' :: '`' :: '`' :: '\n' :: restR => restR.reverse
  | '`' :: '`' :: '`' :: restR => restR.reverse
  | _ => cs

/-- `p` occurs at the start of `cs` (JavaScript `startsWith`). -/
def hasPre : List Char → List Char → Bool
  | [], _ => true
  | _ :: _, [] => false
  | p :: ps, c :: cs => p == c && hasPre ps cs

/-- Scan for the first occurrence of `pat`, reporting its index offset by
`i` (helper for `subIdxOf`). -/
def subIdxOfAux (pat : List Char) : List Char → Nat → Option Nat
  | cs, i =>
    if hasPre pat cs then some i
    else
      match cs with
      | [] => none
      | _ :: rest => subIdxOfAux pat rest (i + 1)

/-- `String.prototype.indexOf` for a pattern string. -/
def subIdxOf (pat cs : List Char) : Option Nat := subIdxOfAux pat cs 0

/-- The HTML cleanup of the build-website handler (server.js 294–298):
strip a leading ```` ```html ````/```` ``` ```` fence and a trailing fence,
trim, and if the result does not start (case-insensitively) with
`<!doctype` or `<html`, drop everything before the first case-sensitive
`<!DOCTYPE` occurrence, if any. -/
def extractHtmlDocument (input : String) : String :=
  let h := jsTrim (stripTrailFence (stripLeadFencePlain (stripLeadFenceHtml input.data)))
  let lower := h.map Char.toLower
  if hasPre "<!doctype".data lower || hasPre "<html".data lower then ⟨h⟩
  else
    match subIdxOf "<!DOCTYPE".data h with
    | some i => ⟨h.drop i⟩
    | none => ⟨h⟩

/-! ## Slugs (server.js 377 and 358) -/

/-- A character the slug regexes keep: `[a-z0-9]`. -/
def isLowerAlnum (c : Char) : Bool :=
  decide (('a' ≤ c ∧ c ≤ 'z') ∨ ('0' ≤ c ∧ c ≤ '9'))

/-- Worker for `collapseRuns`. The flag records whether the scan is inside
a non-alphanumeric run whose single replacement hyphen has already been
emitted. -/
def collapseGo : Bool → List Char → List Char
  | _, [] => []
  | inRun, c :: rest =>
    if isLowerAlnum c then c :: collapseGo false rest
    else if inRun then collapseGo true rest
    else '-' :: collapseGo true rest

/-- Global replace `/[^a-z0-9]+/g` with `'-'`: every maximal run of
characters outside `[a-z0-9]` becomes a single hyphen. -/
def collapseRuns (cs : List Char) : List Char := collapseGo false cs

/-- Character-wise ASCII model of `String.prototype.toLowerCase`. -/
def jsToLowerAscii (cs : List Char) : List Char := cs.map Char.toLower

/-- Global replace `/^-|-$/g` with `''`, leading half: the anchors make the
global regex remove at most one leading and one trailing hyphen. -/
def stripOneLeadHyph (cs : List Char) : List Char :=
  match cs with
  | '-' :: rest => rest
  | _ => cs

/-- Global replace `/^-|-$/g` with `''`, trailing half. -/
def stripOneTrailHyph (cs : List Char) : List Char :=
  match cs.reverse with
  | '-' :: restR => restR.reverse
  | _ => cs

/-- The deploy slug (server.js 377):
`name.toLowerCase().replace(/[^a-z0-9]+/g, '-').replace(/^-|-$/g, '')`. -/
def slugify (name : String) : String :=
  ⟨stripOneTrailHyph (stripOneLeadHyph (collapseRuns (jsToLowerAscii name.data)))⟩

/-- The slug as the spec words it (for the C5 refinement): lowercase,
collapse every maximal non-alphanumeric run to a single hyphen, remove all
leading and trailing hyphens. -/
def specSlug (name : String) : String :=
  ⟨(((collapseRuns (jsToLowerAscii name.data)).dropWhile (fun c => c = '-')).reverse.dropWhile
      (fun c => c = '-')).reverse⟩

/-- The download filename slug (server.js 358):
`(smeRows[0]?.name || 'website').toLowerCase().replace(/[^a-z0-9]+/g, '-')`.
`nameRow` is the `name` of the SME row if one was found. The `||` fallback
fires when the row is absent or its name is the empty string. -/
def downloadSlug (nameRow : Option String) : String :=
  let name :=
    match nameRow with
    | some n => if n = "" then "website" else n
    | none => "website"
  ⟨collapseRuns (jsToLowerAscii name.data)⟩

/-! ## Relational state and the build-website / deploy handlers

The `smes` and `websites` tables are modelled as row lists; the
`UNIQUE (sme_id)` constraint on `websites` (db/init.js line 52, re-ensured
in server.js 316–322) is carried as a hypothesis where a claim needs it.
Row ids abstract the UUID keys as `Nat`; `NOW()` timestamps are a `Nat`
parameter. Only the columns the build/deploy handlers read or write are
modelled. -/

/-- One row of the `websites` table (db/init.js 44–53). -/
structure WebsiteRow where
  smeId : Nat
  html : String
  deployedUrl : Option String
  slug : Option String
  builtAt : Nat
  deployedAt : Option Nat
deriving DecidableEq

/-- The columns of an `smes` row that build-website and deploy touch. -/
structure SmeRow where
  id : Nat
  name : String
  status : String
  deployedUrl : Option String
deriving DecidableEq

/-- The relational state the two handlers read and write. -/
structure DB where
  smes : List SmeRow
  websites : List WebsiteRow
deriving DecidableEq

/-- `SELECT * FROM smes WHERE id = $1` (first matching row). -/
def findSme (db : DB) (id : Nat) : Option SmeRow :=
  db.smes.find? (fun s => decide (s.id = id))

/-- `SELECT ... FROM websites WHERE sme_id = $1` (first matching row). -/
def findWebsite (db : DB) (smeId : Nat) : Option WebsiteRow :=
  db.websites.find? (fun w => decide (w.smeId = smeId))

/-- The website rows belonging to one SME. -/
def websiteRowsFor (db : DB) (smeId : Nat) : List WebsiteRow :=
  db.websites.filter (fun w => decide (w.smeId = smeId))

/-- server.js 300–305:
`INSERT INTO websites (sme_id, html) VALUES ($1, $2) ON CONFLICT (sme_id)
DO UPDATE SET html = $2, built_at = NOW(), deployed_url = NULL,
deployed_at = NULL`. On insert the remaining columns take their schema
defaults (`built_at DEFAULT NOW()`, others NULL). Note the conflict update
does not assign `slug`. -/
def upsertWebsite (db : DB) (smeId : Nat) (html : String) (now : Nat) : DB :=
  if db.websites.any (fun w => decide (w.smeId = smeId)) then
    { db with
      websites := db.websites.map (fun w =>
        if w.smeId = smeId then
          { w with html := html, builtAt := now, deployedUrl := none, deployedAt := none }
        else w) }
  else
    { db with
      websites := db.websites ++
        [{ smeId := smeId, html := html, deployedUrl := none, slug := none,
           builtAt := now, deployedAt := none }] }

/-- server.js 306:
`UPDATE smes SET status = 'website_built', deployed_url = NULL WHERE id = $1`. -/
def setSmeBuilt (db : DB) (id : Nat) : DB :=
  { db with
    smes := db.smes.map (fun s =>
      if s.id = id then { s with status := "website_built", deployedUrl := none } else s) }

/-- server.js 381–384:
`UPDATE websites SET deployed_url = $1, slug = $2, deployed_at = NOW()
WHERE sme_id = $3`. -/
def updateWebsiteDeployment (db : DB) (smeId : Nat) (url slug : String) (now : Nat) : DB :=
  { db with
    websites := db.websites.map (fun w =>
      if w.smeId = smeId then
        { w with deployedUrl := some url, slug := some slug, deployedAt := some now }
      else w) }

/-- server.js 385:
`UPDATE smes SET status = 'deployed', deployed_url = $1 WHERE id = $2`. -/
def setSmeDeployed (db : DB) (id : Nat) (url : String) : DB :=
  { db with
    smes := db.smes.map (fun s =>
      if s.id = id then { s with status := "deployed", deployedUrl := some url } else s) }

/-- Outcome of the build-website handler, as its HTTP response. -/
inductive BuildOutcome where
  | notFound
  | ok
deriving DecidableEq

/-- `POST /api/smes/:smeId/build-website` (server.js 254–313). The model
call is external, so the raw text it returned is a parameter; the handler
cleans it with `extractHtmlDocument`, upserts the website row, then marks
the SME built. -/
def buildWebsite (db : DB) (smeId : Nat) (modelOutput : String) (now : Nat) :
    BuildOutcome × DB :=
  match findSme db smeId with
  | none => (.notFound, db)
  | some _ =>
    (.ok, setSmeBuilt (upsertWebsite db smeId (extractHtmlDocument modelOutput) now) smeId)

/-- Outcome of the deploy handler, as its HTTP response. -/
inductive DeployOutcome where
  | notFound
  | noWebsite
  | ok (url slug : String)
deriving DecidableEq

/-- `POST /api/smes/:smeId/deploy` (server.js 369–390): 404 if the SME is
absent, 400 `'Build website first'` if it has no website row; otherwise
derive the slug from the SME's name, write the deployment onto the website
row, and mirror the url onto the SME row. -/
def deploy (db : DB) (smeId : Nat) (now : Nat) : DeployOutcome × DB :=
  match findSme db smeId with
  | none => (.notFound, db)
  | some sme =>
    match findWebsite db smeId with
    | none => (.noWebsite, db)
    | some _ =>
      let slug := slugify sme.name
      let url := "https://" ++ slug ++ ".netlify.app"
      (.ok url slug, setSmeDeployed (updateWebsiteDeployment db smeId url slug now) smeId url)

/-! ### Persistence failure semantics

The handlers run their persistence statements sequentially with separate
`await pool.query(...)` calls and no transaction, so a statement that
throws leaves every earlier statement's effect committed. `failAfter`
injects a `PersistenceError`: `some k` makes the `(k+1)`-th persistence
statement of the stage throw after `k` statements have committed; any
other value lets every statement succeed. The `Bool` is whether the
handler responded with success. -/

/-- build-website with an injected storage failure. Its two persistence
statements are the website upsert and the SME status update. -/
def buildWebsiteWithFailure (db : DB) (smeId : Nat) (modelOutput : String) (now : Nat)
    (failAfter : Option Nat) : Bool × DB :=
  match findSme db smeId with
  | none => (false, db)
  | some _ =>
    let html := extractHtmlDocument modelOutput
    match failAfter with
    | some 0 => (false, db)
    | some 1 => (false, upsertWebsite db smeId html now)
    | _ => (true, setSmeBuilt (upsertWebsite db smeId html now) smeId)

/-- deploy with an injected storage failure. Its two persistence
statements are the website deployment update and the SME status update. -/
def deployWithFailure (db : DB) (smeId : Nat) (now : Nat) (failAfter : Option Nat) :
    Bool × DB :=
  match findSme db smeId with
  | none => (false, db)
  | some sme =>
    match findWebsite db smeId with
    | none => (false, db)
    | some _ =>
      let slug := slugify sme.name
      let url := "https://" ++ slug ++ ".netlify.app"
      match failAfter with
      | some 0 => (false, db)
      | some 1 => (false, updateWebsiteDeployment db smeId url slug now)
      | _ => (true, setSmeDeployed (updateWebsiteDeployment db smeId url slug now) smeId url)

/-! ## The conversational search driver (server.js 28–111)

`searchSMEsWithWebSearch` makes a first tool-augmented model call, then —
if the first response contains a `tool_use` block or no `text` block —
pushes one synthetic `tool_result` acknowledgment per `tool_use` and makes
a second call carrying the whole conversation. Both model responses are
external, so they are parameters. -/

/-- A content block of a model response. -/
inductive Block where
  | text (s : String)
  | toolUse (id : String)
  | other (ty : String)
deriving DecidableEq

/-- `b.type === 'tool_use'`. -/
def isToolUse : Block → Bool
  | .toolUse _ => true
  | _ => false

/-- `b.type === 'text'`. -/
def isTextBlock : Block → Bool
  | .text _ => true
  | _ => false

/-- The `.text` of a block (`''` when absent, as `?.text || ''`). -/
def blockText : Block → String
  | .text s => s
  | _ => ""

/-- The `.id` of a `tool_use` block. -/
def toolUseId : Block → String
  | .toolUse i => i
  | _ => ""

/-- Message content in the conversation the driver assembles. -/
inductive MsgContent where
  | plain (s : String)
  | blocks (bs : List Block)
  | toolResults (ids : List String)
deriving DecidableEq

/-- One conversation message. `toolResults ids` stands for the array of
`{type: 'tool_result', tool_use_id: id, content: 'Search results
retrieved.'}` objects, one per id, in order. -/
structure Msg where
  role : String
  content : MsgContent
deriving DecidableEq

/-- `searchSMEsWithWebSearch` (server.js 28–111). `userPrompt` is the
follow-up user message text (server.js 80); `firstResp` and `secondResp`
are the content blocks of the two model responses (the second is consulted
only when a second call is issued). Returns the message list carried by
the second call, when one is made, and the final `parseJsonArray` result
(`none` models a thrown error). -/
def searchSMEsWithWebSearch (userPrompt : String) (firstResp secondResp : List Block) :
    Option (List Msg) × Option JsValue :=
  let messages : List Msg := [⟨"user", .plain userPrompt⟩, ⟨"assistant", .blocks firstResp⟩]
  let hasToolUse := firstResp.any isToolUse
  let textBlock := firstResp.find? isTextBlock
  if hasToolUse || textBlock.isNone then
    let toolResults := (firstResp.filter isToolUse).map toolUseId
    let messages2 :=
      if 0 < toolResults.length then messages ++ [⟨"user", .toolResults toolResults⟩]
      else messages
    let finalText :=
      match secondResp.find? isTextBlock with
      | some b => blockText b
      | none => ""
    (some messages2, parseJsonArray finalText)
  else
    (none, parseJsonArray (match textBlock with | some b => blockText b | none => ""))

/-! ## Helper lemmas on the relational model -/

/-- A keyed row update commutes with filtering for that key, when the
update preserves the key. -/
theorem filter_map_websiteKey (ws : List WebsiteRow) (k : Nat) (f : WebsiteRow → WebsiteRow)
    (hf : ∀ w, (f w).smeId = w.smeId) :
    (ws.map (fun w => if w.smeId = k then f w else w)).filter (fun w => decide (w.smeId = k)) =
      (ws.filter (fun w => decide (w.smeId = k))).map f := by
  induction ws with
  | nil => rfl
  | cons w rest ih =>
    by_cases h : w.smeId = k
    · have h2 : (f w).smeId = k := by rw [hf]; exact h
      simp [List.filter_cons, h, h2, ih]
    · simp [List.filter_cons, h, ih]

/-- `find?` is the head of `filter`. -/
theorem find?_eq_head?_filter {α : Type} (p : α → Bool) (l : List α) :
    l.find? p = (l.filter p).head? := by
  induction l with
  | nil => rfl
  | cons a rest ih =>
    by_cases h : p a = true
    · rw [List.find?_cons_of_pos rest h, List.filter_cons_of_pos h]
      rfl
    · rw [List.find?_cons_of_neg rest h, List.filter_cons_of_neg h, ih]

/-- `findWebsite` through `websiteRowsFor`. -/
theorem findWebsite_eq_head (db : DB) (k : Nat) :
    findWebsite db k = (websiteRowsFor db k).head? :=
  find?_eq_head?_filter _ _

/-- The upsert's conflict branch fires exactly when a row for the key
exists. -/
theorem upsertWebsite_rowsFor_of_one (db : DB) (k : Nat) (h : String) (t : Nat)
    (w : WebsiteRow) (hw : websiteRowsFor db k = [w]) :
    websiteRowsFor (upsertWebsite db k h t) k =
      [{ w with html := h, builtAt := t, deployedUrl := none, deployedAt := none }] := by
  have hmem : w ∈ db.websites.filter (fun x => decide (x.smeId = k)) := by
    have hx : w ∈ websiteRowsFor db k := by rw [hw]; exact List.mem_singleton.mpr rfl
    exact hx
  have hany : db.websites.any (fun x => decide (x.smeId = k)) = true :=
    List.any_eq_true.mpr ⟨w, (List.mem_filter.mp hmem).1, (List.mem_filter.mp hmem).2⟩
  have hstep : websiteRowsFor (upsertWebsite db k h t) k =
      (websiteRowsFor db k).map (fun w =>
        { w with html := h, builtAt := t, deployedUrl := none, deployedAt := none }) := by
    unfold upsertWebsite websiteRowsFor
    rw [if_pos hany]
    exact filter_map_websiteKey db.websites k
      (fun w => { w with html := h, builtAt := t, deployedUrl := none, deployedAt := none })
      (fun _ => rfl)
  rw [hstep, hw]
  rfl

/-- The upsert's insert branch appends a fresh row with NULL deployment
columns. -/
theorem upsertWebsite_rowsFor_of_none (db : DB) (k : Nat) (h : String) (t : Nat)
    (hw : websiteRowsFor db k = []) :
    websiteRowsFor (upsertWebsite db k h t) k =
      [{ smeId := k, html := h, deployedUrl := none, slug := none,
         builtAt := t, deployedAt := none }] := by
  have hany : ¬ db.websites.any (fun x => decide (x.smeId = k)) = true := by
    rw [List.any_eq_true]
    rintro ⟨w, hmem, hpw⟩
    have hx : w ∈ websiteRowsFor db k := List.mem_filter.mpr ⟨hmem, hpw⟩
    rw [hw] at hx
    exact absurd hx (List.not_mem_nil w)
  have hstep : websiteRowsFor (upsertWebsite db k h t) k =
      websiteRowsFor db k ++
        [{ smeId := k, html := h, deployedUrl := none, slug := none,
           builtAt := t, deployedAt := none }] := by
    unfold upsertWebsite websiteRowsFor
    rw [if_neg hany]
    show (db.websites ++ _).filter _ = _
    rw [List.filter_append]
    simp
  rw [hstep, hw]
  rfl

/-- The deployment update through `websiteRowsFor`. -/
theorem updateWebsiteDeployment_rowsFor (db : DB) (k : Nat) (url slug : String) (t : Nat) :
    websiteRowsFor (updateWebsiteDeployment db k url slug t) k =
      (websiteRowsFor db k).map (fun w =>
        { w with deployedUrl := some url, slug := some slug, deployedAt := some t }) := by
  unfold updateWebsiteDeployment websiteRowsFor
  exact filter_map_websiteKey _ _ _ (fun _ => rfl)

/-- SME-table updates do not touch the websites table. -/
theorem setSmeBuilt_websites (db : DB) (k : Nat) :
    (setSmeBuilt db k).websites = db.websites := rfl

theorem setSmeDeployed_websites (db : DB) (k : Nat) (url : String) :
    (setSmeDeployed db k url).websites = db.websites := rfl

/-- Website-table updates do not touch the smes table. -/
theorem upsertWebsite_smes (db : DB) (k : Nat) (h : String) (t : Nat) :
    (upsertWebsite db k h t).smes = db.smes := by
  unfold upsertWebsite
  split <;> rfl

theorem updateWebsiteDeployment_smes (db : DB) (k : Nat) (url slug : String) (t : Nat) :
    (updateWebsiteDeployment db k url slug t).smes = db.smes := rfl

/-- A keyed row update commutes with `find?` for that key, when the update
preserves the key. -/
theorem findSme_mapRow (l : List SmeRow) (k : Nat) (g : SmeRow → SmeRow)
    (hg : ∀ s, (g s).id = s.id) :
    (l.map (fun s => if s.id = k then g s else s)).find? (fun s => decide (s.id = k)) =
      (l.find? (fun s => decide (s.id = k))).map (fun s => if s.id = k then g s else s) := by
  induction l with
  | nil => rfl
  | cons s rest ih =>
    by_cases h : s.id = k
    · have h2 : (g s).id = k := by rw [hg]; exact h
      rw [List.map_cons,
        List.find?_cons_of_pos (p := fun s : SmeRow => decide (s.id = k))
          (a := if s.id = k then g s else s) _ (by simp [h, h2]),
        List.find?_cons_of_pos (p := fun s : SmeRow => decide (s.id = k)) (a := s) _
          (by simp [h])]
      simp [h]
    · rw [List.map_cons,
        List.find?_cons_of_neg (p := fun s : SmeRow => decide (s.id = k))
          (a := if s.id = k then g s else s) _ (by simp [h]),
        List.find?_cons_of_neg (p := fun s : SmeRow => decide (s.id = k)) (a := s) _
          (by simp [h]),
        ih]

/-- `findSme` after `setSmeBuilt`. -/
theorem findSme_setSmeBuilt (db : DB) (k : Nat) (sme : SmeRow)
    (hs : findSme db k = some sme) :
    findSme (setSmeBuilt db k) k =
      some { sme with status := "website_built", deployedUrl := none } := by
  have hs' : db.smes.find? (fun s => decide (s.id = k)) = some sme := hs
  have hk0 := List.find?_some hs'
  have hk : sme.id = k := of_decide_eq_true hk0
  show (db.smes.map (fun s => if s.id = k then
      { s with status := "website_built", deployedUrl := none } else s)).find?
      (fun s => decide (s.id = k)) = _
  rw [findSme_mapRow db.smes k
      (fun s => { s with status := "website_built", deployedUrl := none }) (fun _ => rfl), hs']
  simp [hk]

/-- `findSme` after `setSmeDeployed`. -/
theorem findSme_setSmeDeployed (db : DB) (k : Nat) (url : String) (sme : SmeRow)
    (hs : findSme db k = some sme) :
    findSme (setSmeDeployed db k url) k =
      some { sme with status := "deployed", deployedUrl := some url } := by
  have hs' : db.smes.find? (fun s => decide (s.id = k)) = some sme := hs
  have hk0 := List.find?_some hs'
  have hk : sme.id = k := of_decide_eq_true hk0
  show (db.smes.map (fun s => if s.id = k then
      { s with status := "deployed", deployedUrl := some url } else s)).find?
      (fun s => decide (s.id = k)) = _
  rw [findSme_mapRow db.smes k
      (fun s => { s with status := "deployed", deployedUrl := some url }) (fun _ => rfl), hs']
  simp [hk]

/-! ## Claim C4 -/

/-- C4: for every SME that exists but has no Website row, deploy fails
with the 400 precondition error `'Build website first'` (`noWebsite`) and
writes nothing: the database — including the SME's status and deployedUrl
and the absence of a website row — is exactly as before. -/
theorem deploy_without_website_writes_nothing (db : DB) (smeId now : Nat) (sme : SmeRow)
    (hs : findSme db smeId = some sme) (hw : findWebsite db smeId = none) :
    deploy db smeId now = (.noWebsite, db) := by
  simp [deploy, hs, hw]

/-- Witness database for C4: one discovered SME, no website rows. -/
def dbNoSite : DB := ⟨[⟨1, "Armenia Jams", "discovered", none⟩], []⟩

/-- C4 witness: the theorem applies to `dbNoSite` and SME 1. -/
theorem deploy_without_website_writes_nothing_witness :
    findSme dbNoSite 1 = some ⟨1, "Armenia Jams", "discovered", none⟩ ∧
    findWebsite dbNoSite 1 = none ∧
    deploy dbNoSite 1 7 = (.noWebsite, dbNoSite) :=
  ⟨rfl, rfl,
    deploy_without_website_writes_nothing dbNoSite 1 7
      ⟨1, "Armenia Jams", "discovered", none⟩ rfl rfl⟩

/-! ## Claim C2 -/

/-- A deployed SME together with its deployed website row. -/
def dbDeployed : DB :=
  ⟨[⟨1, "Acme", "deployed", some "https://acme.netlify.app"⟩],
   [⟨1, "<p>old</p>", some "https://acme.netlify.app", some "acme", 3, some 4⟩]⟩

/-- C2 counterexample: replacing the website row for SME 1 leaves
`slug = some "acme"` in place. The upsert's conflict clause
(server.js 303) assigns `html`, `built_at`, `deployed_url`, `deployed_at`
— but not `slug`, so the claim that all three of deployedUrl, deployedAt
and slug are nulled is false. -/
theorem upsertWebsite_keeps_slug :
    (findWebsite (upsertWebsite dbDeployed 1 "<p>new</p>" 9) 1).map WebsiteRow.slug =
      some (some "acme") ∧
    (findWebsite (upsertWebsite dbDeployed 1 "<p>new</p>" 9) 1).map WebsiteRow.slug ≠
      some none := by
  exact ⟨rfl, by decide⟩

/-- C2 (amended): when the upsert replaces an existing Website row it
stores the new html, refreshes builtAt, and nulls deployedUrl and
deployedAt, while the row's slug keeps its previous value. -/
theorem upsertWebsite_on_replace (db : DB) (k : Nat) (h : String) (t : Nat) (w : WebsiteRow)
    (hw : websiteRowsFor db k = [w]) :
    websiteRowsFor (upsertWebsite db k h t) k =
      [{ smeId := w.smeId, html := h, deployedUrl := none, slug := w.slug,
         builtAt := t, deployedAt := none }] :=
  upsertWebsite_rowsFor_of_one db k h t w hw

/-- C2 witness: the amended theorem applies to `dbDeployed`. -/
theorem upsertWebsite_on_replace_witness :
    websiteRowsFor dbDeployed 1 =
      [⟨1, "<p>old</p>", some "https://acme.netlify.app", some "acme", 3, some 4⟩] ∧
    websiteRowsFor (upsertWebsite dbDeployed 1 "<p>new</p>" 9) 1 =
      [⟨1, "<p>new</p>", none, some "acme", 9, none⟩] :=
  ⟨rfl,
    upsertWebsite_on_replace dbDeployed 1 "<p>new</p>" 9
      ⟨1, "<p>old</p>", some "https://acme.netlify.app", some "acme", 3, some 4⟩ rfl⟩

/-! ## Claim C7 -/

/-- A second deployed SME/website pair, for the persistence-failure
scenario. -/
def dbDeployed2 : DB :=
  ⟨[⟨2, "Beta Co", "deployed", some "https://beta-co.netlify.app"⟩],
   [⟨2, "<p>site</p>", some "https://beta-co.netlify.app", some "beta-co", 3, some 4⟩]⟩

/-- C7 counterexample: build-website runs two persistence statements with
no transaction. If the second (the SME status update) throws, the state is
not "as it was before the stage ran": the website row already carries the
new html with nulled deployment while the SME row still says `deployed`. -/
theorem buildWebsite_failed_status_update :
    (buildWebsiteWithFailure dbDeployed2 2 "<!DOCTYPE html><p>n</p>" 9 (some 1)).1 = false ∧
    (buildWebsiteWithFailure dbDeployed2 2 "<!DOCTYPE html><p>n</p>" 9 (some 1)).2 ≠
      dbDeployed2 ∧
    (findWebsite (buildWebsiteWithFailure dbDeployed2 2 "<!DOCTYPE html><p>n</p>" 9
        (some 1)).2 2).map WebsiteRow.html = some "<!DOCTYPE html><p>n</p>" ∧
    (findSme (buildWebsiteWithFailure dbDeployed2 2 "<!DOCTYPE html><p>n</p>" 9
        (some 1)).2 2).map SmeRow.status = some "deployed" := by
  refine ⟨rfl, by decide, rfl, rfl⟩

/-- C7 (amended): a storage failure in the first persistence statement of
build-website or deploy leaves the state exactly as before; but each of
those stages runs two statements without a transaction, so a failure of
the second statement commits the artifact write while leaving the SME row
untouched — partial state for that entity is possible. -/
theorem stage_persistence_failure (db : DB) (k : Nat) (m : String) (t : Nat) :
    ((buildWebsiteWithFailure db k m t (some 0)).2 = db) ∧
    ((deployWithFailure db k t (some 0)).2 = db) ∧
    (∀ sme, findSme db k = some sme →
      (buildWebsiteWithFailure db k m t (some 1)).2.smes = db.smes ∧
      (buildWebsiteWithFailure db k m t (some 1)).2.websites =
        (upsertWebsite db k (extractHtmlDocument m) t).websites) ∧
    (∀ sme w, findSme db k = some sme → findWebsite db k = some w →
      (deployWithFailure db k t (some 1)).2.smes = db.smes ∧
      (deployWithFailure db k t (some 1)).2.websites =
        (updateWebsiteDeployment db k
          ("https://" ++ slugify sme.name ++ ".netlify.app") (slugify sme.name) t).websites) := by
  refine ⟨?_, ?_, ?_, ?_⟩
  · cases hfs : findSme db k <;> simp [buildWebsiteWithFailure, hfs]
  · cases hfs : findSme db k with
    | none => simp [deployWithFailure, hfs]
    | some sme =>
      cases hfw : findWebsite db k <;> simp [deployWithFailure, hfs, hfw]
  · intro sme hsme
    exact ⟨by simp [buildWebsiteWithFailure, hsme, upsertWebsite_smes],
      by simp [buildWebsiteWithFailure, hsme]⟩
  · intro sme w hsme hw
    exact ⟨by simp [deployWithFailure, hsme, hw, updateWebsiteDeployment_smes],
      by simp [deployWithFailure, hsme, hw]⟩

/-- C7 witness: the amended theorem applied to `dbDeployed2`. -/
theorem stage_persistence_failure_witness :
    (buildWebsiteWithFailure dbDeployed2 2 "<p>m</p>" 9 (some 0)).2 = dbDeployed2 ∧
    (buildWebsiteWithFailure dbDeployed2 2 "<p>m</p>" 9 (some 1)).2.smes = dbDeployed2.smes :=
  ⟨(stage_persistence_failure dbDeployed2 2 "<p>m</p>" 9).1,
    ((stage_persistence_failure dbDeployed2 2 "<p>m</p>" 9).2.2.1
      ⟨2, "Beta Co", "deployed", some "https://beta-co.netlify.app"⟩ rfl).1⟩

/-! ## Claim C10 -/

/-- C10: the download filename slug lowercases the business name and
collapses runs outside `[a-z0-9]` to single hyphens, without trimming
leading or trailing hyphens; it falls back to the literal `"website"` when
the SME row is absent or its name is empty; and for names ending in
punctuation, such as `"Co."`, the download filename differs from the
deploy slug. -/
theorem downloadSlug_spec :
    downloadSlug none = "website" ∧
    downloadSlug (some "") = "website" ∧
    (∀ n : String, n ≠ "" →
      downloadSlug (some n) = ⟨collapseRuns (jsToLowerAscii n.data)⟩) ∧
    downloadSlug (some "Co.") = "co-" ∧
    slugify "Co." = "co" ∧
    downloadSlug (some "Co.") ≠ slugify "Co." := by
  refine ⟨rfl, rfl, ?_, rfl, rfl, by decide⟩
  intro n hn
  simp [downloadSlug, hn]

/-- C10 witness: the fallback-free branch of the theorem at `"Co."`. -/
theorem downloadSlug_spec_witness :
    downloadSlug (some "Co.") = ⟨collapseRuns (jsToLowerAscii "Co.".data)⟩ :=
  downloadSlug_spec.2.2.1 "Co." (by decide)

/-! ## Claim C8 -/

/-- C8: the driver treats the first response as incomplete exactly when it
contains one or more `tool_use` blocks or no `text` block; in that case it
issues a second call whose conversation is the user prompt, the entire
first response as the assistant turn, and one synthetic tool_result per
tool invocation (that third message present exactly when at least one
invocation occurred), and parses the second response's text; otherwise it
parses the first response's text. Both branches feed the selected text to
`parseJsonArray`. -/
theorem searchDriver_spec (up : String) (first second : List Block) :
    ((searchSMEsWithWebSearch up first second).1.isSome ↔
      ((∃ b ∈ first, isToolUse b) ∨ ¬ ∃ b ∈ first, isTextBlock b)) ∧
    (∀ msgs, (searchSMEsWithWebSearch up first second).1 = some msgs →
      msgs = [⟨"user", .plain up⟩, ⟨"assistant", .blocks first⟩] ++
        (if 0 < first.countP isToolUse
         then [⟨"user", .toolResults ((first.filter isToolUse).map toolUseId)⟩]
         else []) ∧
      ((first.filter isToolUse).map toolUseId).length = first.countP isToolUse) ∧
    ((searchSMEsWithWebSearch up first second).2 =
      if (∃ b ∈ first, isToolUse b) ∨ ¬ ∃ b ∈ first, isTextBlock b then
        parseJsonArray (match second.find? isTextBlock with
          | some b => blockText b | none => "")
      else
        parseJsonArray (match first.find? isTextBlock with
          | some b => blockText b | none => "")) := by
  have hlen : ((first.filter isToolUse).map toolUseId).length = first.countP isToolUse := by
    rw [List.length_map, ← List.countP_eq_length_filter]
  by_cases hc : (∃ b ∈ first, isToolUse b) ∨ ¬ ∃ b ∈ first, isTextBlock b
  · have hbool : (first.any isToolUse || (first.find? isTextBlock).isNone) = true := by
      rcases hc with h | h
      · rw [Bool.or_eq_true]
        exact Or.inl (List.any_eq_true.mpr h)
      · rw [Bool.or_eq_true]
        refine Or.inr ?_
        rw [Option.isNone_iff_eq_none, List.find?_eq_none]
        intro x hx hpx
        exact h ⟨x, hx, hpx⟩
    have hcnt : 0 < first.countP isToolUse ↔
        0 < ((first.filter isToolUse).map toolUseId).length := by rw [hlen]
    refine ⟨?_, ?_, ?_⟩
    · simp only [searchSMEsWithWebSearch, hbool, if_true]
      exact ⟨fun _ => hc, fun _ => rfl⟩
    · intro msgs hmsgs
      simp only [searchSMEsWithWebSearch, hbool, if_true, Option.some.injEq] at hmsgs
      subst hmsgs
      refine ⟨?_, hlen⟩
      by_cases h0 : 0 < first.countP isToolUse
      · rw [if_pos h0, if_pos (hcnt.mp h0)]
      · rw [if_neg h0, if_neg (fun hx => h0 (hcnt.mpr hx)), List.append_nil]
    · rw [if_pos hc]
      simp only [searchSMEsWithWebSearch, hbool, if_true]
  · have hbool : (first.any isToolUse || (first.find? isTextBlock).isNone) = false := by
      push_neg at hc
      rcases hc with ⟨h1, h2⟩
      rw [Bool.or_eq_false_iff]
      constructor
      · rw [Bool.eq_false_iff]
        intro hx
        exact absurd (List.any_eq_true.mp hx) (by simpa using h1)
      · rcases h2 with ⟨b, hb, hpb⟩
        have hsome : (first.find? isTextBlock).isSome = true :=
          List.find?_isSome.mpr ⟨b, hb, hpb⟩
        rw [Option.isNone_eq_false_iff]
        exact hsome
    refine ⟨?_, ?_, ?_⟩
    · simp only [searchSMEsWithWebSearch, hbool, Bool.false_eq_true, if_false]
      simp only [Option.isSome_none, Bool.false_eq_true, false_iff]
      exact hc
    · intro msgs hmsgs
      simp only [searchSMEsWithWebSearch, hbool, Bool.false_eq_true, if_false] at hmsgs
      exact absurd hmsgs (Option.noConfusion)
    · rw [if_neg hc]
      simp only [searchSMEsWithWebSearch, hbool, Bool.false_eq_true, if_false]

/-! ## Claim C1 -/

/-- Fence stripping only deletes characters. -/
theorem stripFence1_sublist : ∀ cs, List.Sublist (stripFence1 cs) cs := by
  intro cs
  induction cs using stripFence1.induct with
  | case1 rest ih =>
    rw [stripFence1.eq_1]
    exact ih.trans (List.IsSuffix.sublist ⟨['`', '`', '`', 'j', 's', 'o', 'n', '\n'], rfl⟩)
  | case2 rest h1 ih =>
    rw [stripFence1.eq_2 rest h1]
    exact ih.trans (List.IsSuffix.sublist ⟨['`', '`', '`', 'j', 's', 'o', 'n'], rfl⟩)
  | case3 rest ih =>
    rw [stripFence1.eq_3]
    exact ih.trans (List.IsSuffix.sublist ⟨['\n', '`', '`', '`'], rfl⟩)
  | case4 rest h1 h2 ih =>
    rw [stripFence1.eq_4 rest h1 h2]
    exact ih.trans (List.IsSuffix.sublist ⟨['`', '`', '`'], rfl⟩)
  | case5 c rest h1 h2 h3 h4 ih =>
    rw [stripFence1.eq_5 c rest h1 h2 h3 h4]
    exact List.Sublist.cons₂ c ih
  | case6 =>
    rw [stripFence1.eq_6]

/-- Fence stripping only deletes characters. -/
theorem stripFence2_sublist : ∀ cs, List.Sublist (stripFence2 cs) cs := by
  intro cs
  induction cs using stripFence2.induct with
  | case1 rest ih =>
    rw [stripFence2.eq_1]
    exact ih.trans (List.IsSuffix.sublist ⟨['`', '`', '`', '\n'], rfl⟩)
  | case2 rest h1 ih =>
    rw [stripFence2.eq_2 rest h1]
    exact ih.trans (List.IsSuffix.sublist ⟨['`', '`', '`'], rfl⟩)
  | case3 c rest h1 h2 ih =>
    rw [stripFence2.eq_3 c rest h1 h2]
    exact List.Sublist.cons₂ c ih
  | case4 =>
    rw [stripFence2.eq_4]

/-- Trimming only deletes characters. -/
theorem mem_jsTrim (a : Char) (cs : List Char) (h : a ∈ jsTrim cs) : a ∈ cs := by
  rw [jsTrim, List.mem_reverse] at h
  have h2 := (List.dropWhile_sublist (p := isJsTrimWs)).mem h
  rw [List.mem_reverse] at h2
  exact (List.dropWhile_sublist (p := isJsTrimWs)).mem h2

/-- Every character of the cleaned text occurs in the input. -/
theorem mem_cleanedText (a : Char) (text : String) (h : a ∈ cleanedText text) :
    a ∈ text.data :=
  (stripFence1_sublist text.data).mem
    ((stripFence2_sublist (stripFence1 text.data)).mem (mem_jsTrim a _ h))

/-- `indexOf` misses exactly the absent characters. -/
theorem firstIdxOf_eq_none (c : Char) (cs : List Char) (h : c ∉ cs) :
    firstIdxOf c cs = none := by
  induction cs with
  | nil => rfl
  | cons d rest ih =>
    rw [firstIdxOf,
      if_neg (fun hd => h (List.mem_cons.mpr (Or.inl hd.symm))),
      ih (fun hm => h (List.mem_cons_of_mem d hm))]
    rfl

/-- C1: `parseJsonArray` strips code fences, trims, takes the inclusive
span from the first `'['` to the last `']'` of the cleaned text, and
`JSON.parse`s it. Concretely: the fenced `[{"a":1}]` document parses to
that array; any input without a `'['` (or without a `']'`) throws; prose
followed by a valid array still recovers the array; and in general it
throws exactly when the bracket pair cannot be located or the spanned
substring is not valid JSON. -/
theorem parseJsonArray_spec :
    parseJsonArray "```json\n[\x7b\"a\":1\x7d]\n```" =
      some (.arr [.obj [("a", .num "1")]]) ∧
    (∀ text : String, '[' ∉ text.data → parseJsonArray text = none) ∧
    (∀ text : String, ']' ∉ text.data → parseJsonArray text = none) ∧
    parseJsonArray "Here are the businesses I found for you:\n[\x7b\"a\":1\x7d]" =
      some (.arr [.obj [("a", .num "1")]]) ∧
    (∀ text : String, parseJsonArray text = none ↔
      (firstIdxOf '[' (cleanedText text) = none ∨
       lastIdxOf ']' (cleanedText text) = none ∨
       ∃ s e, firstIdxOf '[' (cleanedText text) = some s ∧
         lastIdxOf ']' (cleanedText text) = some e ∧
         jsonParse (((cleanedText text).drop s).take (e + 1 - s)) = none)) := by
  refine ⟨rfl, ?_, ?_, rfl, ?_⟩
  · intro text hmem
    have hcl : '[' ∉ cleanedText text := fun hc => hmem (mem_cleanedText _ _ hc)
    cases he : lastIdxOf ']' (cleanedText text) <;>
      simp [parseJsonArray, firstIdxOf_eq_none _ _ hcl, he]
  · intro text hmem
    have hcl : ']' ∉ (cleanedText text).reverse := fun hc =>
      hmem (mem_cleanedText _ _ (List.mem_reverse.mp hc))
    have hnone : lastIdxOf ']' (cleanedText text) = none := by
      rw [lastIdxOf, firstIdxOf_eq_none _ _ hcl]
      rfl
    cases hs : firstIdxOf '[' (cleanedText text) <;>
      simp [parseJsonArray, hs, hnone]
  · intro text
    constructor
    · intro h
      cases hs : firstIdxOf '[' (cleanedText text) with
      | none => exact Or.inl rfl
      | some s =>
        cases he : lastIdxOf ']' (cleanedText text) with
        | none => exact Or.inr (Or.inl rfl)
        | some e =>
          refine Or.inr (Or.inr ⟨s, e, rfl, rfl, ?_⟩)
          rw [parseJsonArray] at h
          simp only [hs, he] at h
          exact h
    · intro h
      rcases h with hs | he | ⟨s, e, hs, he, hj⟩
      · cases he : lastIdxOf ']' (cleanedText text) <;> simp [parseJsonArray, hs, he]
      · cases hs : firstIdxOf '[' (cleanedText text) <;> simp [parseJsonArray, hs, he]
      · simp [parseJsonArray, hs, he, hj]

/-- C1 witness: bracket-free prose throws, by the theorem's second
conjunct. -/
theorem parseJsonArray_spec_witness :
    parseJsonArray "The model returned no list." = none :=
  parseJsonArray_spec.2.1 "The model returned no list." (by decide)

/-! ## Claim C6 -/

/-- C6 counterexample: the input `" x"` has no leading or trailing fence,
no doctype/html prefix and no `<!DOCTYPE` occurrence — total failure in
the claim's sense — yet the cleanup returns `"x"`, not the input: the
unconditional `.trim()` (server.js 294) modifies it. -/
theorem extractHtmlDocument_trims :
    stripLeadFenceHtml " x".data = " x".data ∧
    stripLeadFencePlain " x".data = " x".data ∧
    stripTrailFence " x".data = " x".data ∧
    subIdxOf "<!DOCTYPE".data " x".data = none ∧
    hasPre "<!doctype".data (" x".data.map Char.toLower) = false ∧
    hasPre "<html".data (" x".data.map Char.toLower) = false ∧
    extractHtmlDocument " x" = "x" ∧
    " x" ≠ "x" := by
  refine ⟨rfl, rfl, rfl, rfl, rfl, rfl, rfl, by decide⟩

/-- C6 (amended): `extractHtmlDocument` is a total function (never
throws); whenever no leading or trailing fence is detected (the three
fence-strip passes leave the text unchanged) and the trimmed text contains
no `<!DOCTYPE`, the result is the input trimmed of surrounding JavaScript
whitespace — and equals the input unmodified exactly when the input
carries no such surrounding whitespace. -/
theorem extractHtmlDocument_no_fence (s : String)
    (h1 : stripLeadFenceHtml s.data = s.data)
    (h2 : stripLeadFencePlain s.data = s.data)
    (h3 : stripTrailFence s.data = s.data)
    (h6 : subIdxOf "<!DOCTYPE".data (jsTrim s.data) = none) :
    extractHtmlDocument s = ⟨jsTrim s.data⟩ ∧
    (jsTrim s.data = s.data → extractHtmlDocument s = s) := by
  have hmain : extractHtmlDocument s = ⟨jsTrim s.data⟩ := by
    rw [extractHtmlDocument]
    simp only [h1, h2, h3]
    split
    · rfl
    · simp only [h6]
  refine ⟨hmain, fun htrim => ?_⟩
  rw [hmain, htrim]

/-- C6 witness: a fence-free, whitespace-free input passes through the
amended theorem unmodified. -/
theorem extractHtmlDocument_no_fence_witness :
    extractHtmlDocument "plain text" = "plain text" :=
  (extractHtmlDocument_no_fence "plain text" rfl rfl rfl rfl).2 rfl

/-! ## Claim C5 -/

/-- Not both hyphens: the relation whose `Chain'` says no two adjacent
hyphens occur. -/
def NotHH (a b : Char) : Prop := ¬ (a = '-' ∧ b = '-')

/-- After its replacement hyphen has been emitted, the collapse worker
next emits an alphanumeric character. -/
theorem collapseGo_true_head (l : List Char) :
    ∀ c, (collapseGo true l).head? = some c → isLowerAlnum c = true := by
  induction l with
  | nil => intro c h; cases h
  | cons d rest ih =>
    intro c h
    by_cases hd : isLowerAlnum d = true
    · simp only [collapseGo, if_pos hd, List.head?_cons] at h
      exact (Option.some.inj h) ▸ hd
    · simp only [collapseGo, if_neg hd, if_pos rfl] at h
      exact ih c h

/-- The collapse output never contains two adjacent hyphens. -/
theorem collapseGo_chain (b : Bool) (l : List Char) :
    (collapseGo b l).Chain' NotHH := by
  induction l generalizing b with
  | nil => simp [collapseGo]
  | cons d rest ih =>
    by_cases hd : isLowerAlnum d = true
    · simp only [collapseGo, if_pos hd]
      rw [List.chain'_cons']
      refine ⟨?_, ih false⟩
      intro y _
      intro hdh
      rw [hdh.1] at hd
      exact absurd hd (by decide)
    · cases b with
      | true =>
        simp only [collapseGo, if_neg hd, if_pos rfl]
        exact ih true
      | false =>
        simp only [collapseGo, if_neg hd]
        rw [if_neg Bool.false_ne_true, List.chain'_cons']
        refine ⟨?_, ih true⟩
        intro y hy
        intro hyh
        rw [Option.mem_def] at hy
        have halnum := collapseGo_true_head rest y hy
        rw [hyh.2] at halnum
        exact absurd halnum (by decide)

/-- A list whose head is not a hyphen survives the hyphen `dropWhile`. -/
theorem dropWhile_hyph_eq_self (l : List Char)
    (h : ∀ y, l.head? = some y → ¬ y = '-') :
    l.dropWhile (fun c => decide (c = '-')) = l := by
  cases l with
  | nil => rfl
  | cons y t =>
    rw [List.dropWhile_cons, if_neg]
    simp only [decide_eq_true_eq]
    exact h y rfl

/-- On hyphen-chain-free lists, removing one leading hyphen is removing
all leading hyphens. -/
theorem stripOneLeadHyph_eq_dropWhile (l : List Char) (h : l.Chain' NotHH) :
    stripOneLeadHyph l = l.dropWhile (fun c => decide (c = '-')) := by
  cases l with
  | nil => rfl
  | cons c rest =>
    by_cases hc : c = '-'
    · subst hc
      show rest = _
      rw [List.dropWhile_cons, if_pos (by simp)]
      rw [List.chain'_cons'] at h
      refine (dropWhile_hyph_eq_self rest ?_).symm
      intro y hy hy'
      exact h.1 y (Option.mem_def.mpr hy) ⟨rfl, hy'⟩
    · have hkeep : stripOneLeadHyph (c :: rest) = c :: rest := by
        rw [stripOneLeadHyph.eq_def]
        split
        · rename_i r heq
          exact absurd heq
            (by intro hq; rw [List.cons.injEq] at hq; exact hc hq.1)
        · rfl
      rw [hkeep, List.dropWhile_cons, if_neg (by simpa using hc)]

/-- On hyphen-chain-free lists, removing one trailing hyphen is removing
all trailing hyphens. -/
theorem stripOneTrailHyph_eq_dropWhile (l : List Char) (h : l.Chain' NotHH) :
    stripOneTrailHyph l = (l.reverse.dropWhile (fun c => decide (c = '-'))).reverse := by
  have hrev : l.reverse.Chain' NotHH := by
    rw [List.chain'_reverse]
    exact h.imp (fun a b hab => fun hba => hab ⟨hba.2, hba.1⟩)
  have hbridge : stripOneTrailHyph l = (stripOneLeadHyph l.reverse).reverse := by
    rw [stripOneTrailHyph.eq_def]
    split
    · rename_i restR heq
      rw [heq]
      rfl
    · rename_i x hno
      rw [stripOneLeadHyph.eq_def]
      split
      · rename_i r heq2
        exact absurd heq2 (fun hq => hno r hq)
      · rw [List.reverse_reverse]
  rw [hbridge, stripOneLeadHyph_eq_dropWhile l.reverse hrev]

/-- C5: the deploy slug (server.js 377) matches the spec's description
exactly: lowercase the name, collapse every maximal run of
non-alphanumeric characters to a single hyphen, and remove all leading and
trailing hyphens; for the name "Anush's Jams & Co." it is
"anush-s-jams-co". (The code strips at most one hyphen at each boundary,
which suffices because the collapse never yields two adjacent hyphens.) -/
theorem slugify_spec :
    slugify "Anush's Jams & Co." = "anush-s-jams-co" ∧
    ∀ name : String, slugify name = specSlug name := by
  refine ⟨rfl, ?_⟩
  intro name
  have hch : (collapseRuns (jsToLowerAscii name.data)).Chain' NotHH :=
    collapseGo_chain false _
  have hdw : ((collapseRuns (jsToLowerAscii name.data)).dropWhile
      (fun c => decide (c = '-'))).Chain' NotHH :=
    hch.suffix (List.dropWhile_suffix _)
  rw [slugify, specSlug, stripOneLeadHyph_eq_dropWhile _ hch,
    stripOneTrailHyph_eq_dropWhile _ hdw]

/-! ## Claim C3 -/

/-- SME-table updates leave the website rows of every key unchanged. -/
theorem setSmeBuilt_rowsFor (db : DB) (k j : Nat) :
    websiteRowsFor (setSmeBuilt db j) k = websiteRowsFor db k := rfl

theorem setSmeDeployed_rowsFor (db : DB) (k j : Nat) (url : String) :
    websiteRowsFor (setSmeDeployed db j url) k = websiteRowsFor db k := rfl

/-- Website-table updates leave SME lookups unchanged. -/
theorem findSme_updateWebsiteDeployment (db : DB) (k j : Nat) (url slug : String) (t : Nat) :
    findSme (updateWebsiteDeployment db j url slug t) k = findSme db k := rfl

theorem findSme_upsertWebsite (db : DB) (k j : Nat) (h : String) (t : Nat) :
    findSme (upsertWebsite db j h t) k = findSme db k := by
  show (upsertWebsite db j h t).smes.find? (fun s => decide (s.id = k)) = _
  rw [upsertWebsite_smes]
  rfl

/-- After building for an existing SME with at most one website row, the
SME has exactly one website row: the fresh build, not deployed. Its slug
is whatever the upsert leaves (NULL on insert, the prior value on
replace). -/
theorem buildWebsite_rowsFor (db : DB) (k : Nat) (sme : SmeRow) (m : String) (t : Nat)
    (hs : findSme db k = some sme) (hu : (websiteRowsFor db k).length ≤ 1) :
    ∃ sl, websiteRowsFor (buildWebsite db k m t).2 k =
      [{ smeId := k, html := extractHtmlDocument m, deployedUrl := none, slug := sl,
         builtAt := t, deployedAt := none }] := by
  rw [buildWebsite]
  simp only [hs]
  rw [setSmeBuilt_rowsFor]
  rcases hW : websiteRowsFor db k with _ | ⟨w, rest⟩
  · exact ⟨none, upsertWebsite_rowsFor_of_none db k _ t hW⟩
  · rcases rest with _ | ⟨w2, rest2⟩
    · have hwmem : w ∈ websiteRowsFor db k := by
        rw [hW]
        exact List.mem_singleton.mpr rfl
      have hwk : w.smeId = k :=
        of_decide_eq_true (List.mem_filter.mp hwmem).2
      refine ⟨w.slug, ?_⟩
      rw [upsertWebsite_rowsFor_of_one db k _ t w hW, hwk]
    · rw [hW] at hu
      simp at hu

/-- After building, the SME row reads `website_built` with no deployed
url. -/
theorem buildWebsite_findSme (db : DB) (k : Nat) (sme : SmeRow) (m : String) (t : Nat)
    (hs : findSme db k = some sme) :
    findSme (buildWebsite db k m t).2 k =
      some { sme with status := "website_built", deployedUrl := none } := by
  rw [buildWebsite]
  simp only [hs]
  have hs2 : findSme (upsertWebsite db k (extractHtmlDocument m) t) k = some sme := by
    rw [findSme_upsertWebsite]
    exact hs
  exact findSme_setSmeBuilt _ k sme hs2

/-- Deploy on an SME with exactly one website row succeeds, writes the
deployment onto the row, and marks the SME deployed. -/
theorem deploy_effects (db : DB) (k t : Nat) (sme : SmeRow) (w : WebsiteRow)
    (hs : findSme db k = some sme) (hW : websiteRowsFor db k = [w]) :
    (deploy db k t).1 =
      .ok ("https://" ++ slugify sme.name ++ ".netlify.app") (slugify sme.name) ∧
    websiteRowsFor (deploy db k t).2 k =
      [{ w with deployedUrl := some ("https://" ++ slugify sme.name ++ ".netlify.app"),
                slug := some (slugify sme.name), deployedAt := some t }] ∧
    findSme (deploy db k t).2 k =
      some { sme with status := "deployed",
                      deployedUrl :=
                        some ("https://" ++ slugify sme.name ++ ".netlify.app") } := by
  have hfw : findWebsite db k = some w := by
    rw [findWebsite_eq_head, hW]
    rfl
  rw [deploy]
  simp only [hs, hfw]
  refine ⟨trivial, ?_, ?_⟩
  · rw [setSmeDeployed_rowsFor, updateWebsiteDeployment_rowsFor, hW]
    rfl
  · have hs3 : findSme (updateWebsiteDeployment db k
        ("https://" ++ slugify sme.name ++ ".netlify.app") (slugify sme.name) t) k =
        some sme := by
      rw [findSme_updateWebsiteDeployment]
      exact hs
    exact findSme_setSmeDeployed _ k _ sme hs3

/-- C3: building twice for an existing SME — optionally with a successful
deploy between the builds — leaves exactly one Website row for that SME,
holding the second build's (cleaned) html with `deployedUrl = NULL`; and
in the with-deploy scenario the intermediate deploy did succeed. -/
theorem buildWebsite_twice (db : DB) (k : Nat) (sme : SmeRow) (m1 m2 : String)
    (t1 t2 t3 : Nat) (withDeploy : Bool)
    (hs : findSme db k = some sme)
    (hu : (websiteRowsFor db k).length ≤ 1) :
    ∃ sl,
      websiteRowsFor
        (buildWebsite
          (if withDeploy then (deploy (buildWebsite db k m1 t1).2 k t2).2
           else (buildWebsite db k m1 t1).2) k m2 t3).2 k =
        [{ smeId := k, html := extractHtmlDocument m2, deployedUrl := none, slug := sl,
           builtAt := t3, deployedAt := none }] ∧
      (withDeploy = true →
        ∃ url slug, (deploy (buildWebsite db k m1 t1).2 k t2).1 = .ok url slug) := by
  obtain ⟨sl1, hW1⟩ := buildWebsite_rowsFor db k sme m1 t1 hs hu
  have hs1 := buildWebsite_findSme db k sme m1 t1 hs
  cases withDeploy with
  | false =>
    obtain ⟨sl2, hW2⟩ := buildWebsite_rowsFor (buildWebsite db k m1 t1).2 k _ m2 t3 hs1
      (by rw [hW1]; exact Nat.le_refl 1)
    exact ⟨sl2, by rw [if_neg Bool.false_ne_true]; exact hW2, fun hcon => absurd hcon (by simp)⟩
  | true =>
    obtain ⟨hok, hWd, hsd⟩ := deploy_effects (buildWebsite db k m1 t1).2 k t2 _ _ hs1 hW1
    obtain ⟨sl3, hW3⟩ := buildWebsite_rowsFor (deploy (buildWebsite db k m1 t1).2 k t2).2 k
      _ m2 t3 hsd (by rw [hWd]; exact Nat.le_refl 1)
    refine ⟨sl3, ?_, fun _ => ⟨_, _, hok⟩⟩
    rw [if_pos rfl]
    exact hW3

/-- Witness database for C3: one discovered SME, no websites yet. -/
def dbTwice : DB := ⟨[⟨3, "Gamma Soap", "discovered", none⟩], []⟩

/-- C3 witness: the theorem applied with a deploy between the two builds
on `dbTwice`. -/
theorem buildWebsite_twice_witness :
    ∃ sl,
      websiteRowsFor
        (buildWebsite
          (if true then (deploy (buildWebsite dbTwice 3 "<p>a</p>" 1).2 3 2).2
           else (buildWebsite dbTwice 3 "<p>a</p>" 1).2) 3 "<p>b</p>" 3).2 3 =
        [{ smeId := 3, html := extractHtmlDocument "<p>b</p>", deployedUrl := none, slug := sl,
           builtAt := 3, deployedAt := none }] ∧
      (true = true →
        ∃ url slug, (deploy (buildWebsite dbTwice 3 "<p>a</p>" 1).2 3 2).1 = .ok url slug) :=
  buildWebsite_twice dbTwice 3 ⟨3, "Gamma Soap", "discovered", none⟩ "<p>a</p>" "<p>b</p>"
    1 2 3 true rfl (by decide)

/-! ## Claim C9 -/

/-- The character found by `firstIdxOf` really is at that position. -/
theorem firstIdxOf_drop (c : Char) (cs : List Char) (s : Nat)
    (h : firstIdxOf c cs = some s) : ∃ t, cs.drop s = c :: t := by
  induction cs generalizing s with
  | nil => cases h
  | cons d rest ih =>
    by_cases hd : d = c
    · rw [firstIdxOf, if_pos hd] at h
      obtain rfl : (0 : Nat) = s := Option.some.inj h
      exact ⟨rest, by rw [List.drop_zero, hd]⟩
    · rw [firstIdxOf, if_neg hd] at h
      cases hi : firstIdxOf c rest with
      | none => rw [hi] at h; cases h
      | some i =>
        rw [hi, Option.map_some'] at h
        obtain rfl : i + 1 = s := Option.some.inj h
        obtain ⟨t, ht⟩ := ih i hi
        exact ⟨t, by rw [List.drop_succ_cons, ht]⟩

/-- A `parseValue` success on input starting with `'['` is an array. -/
theorem parseValue_lbracket (n : Nat) (cs r : List Char) (v : JsValue)
    (h : parseValue n ('[' :: cs) = some (v, r)) : ∃ xs, v = JsValue.arr xs := by
  cases n with
  | zero => simp [parseValue] at h
  | succ m =>
    simp only [parseValue] at h
    rw [if_pos trivial] at h
    split at h
    · have hp := Option.some.inj h
      exact ⟨[], (congrArg Prod.fst hp).symm⟩
    · rw [Option.map_eq_some'] at h
      obtain ⟨p, hp, hfp⟩ := h
      exact ⟨p.1, (congrArg Prod.fst hfp).symm⟩

/-- A `jsonParse` success on input starting with `'['` is an array. -/
theorem jsonParse_lbracket (cs : List Char) (v : JsValue)
    (h : jsonParse ('[' :: cs) = some v) : ∃ xs, v = JsValue.arr xs := by
  have hb : skipWs ('[' :: cs) = '[' :: cs := by
    rw [skipWs, List.dropWhile_cons]
    simp [isJsonWs]
  rw [jsonParse] at h
  simp only [hb] at h
  split at h
  · rename_i v1 r1 heq
    by_cases hr : skipWs r1 = []
    · rw [if_pos hr] at h
      obtain rfl : v1 = v := Option.some.inj h
      exact parseValue_lbracket _ cs r1 v1 heq
    · rw [if_neg hr] at h
      cases h
  · cases h

/-- C9: whenever `parseJsonArray` returns without throwing, the value is a
JSON array — never an object, string, number, boolean or null — because
the parsed substring begins at the located `'['`. -/
theorem parseJsonArray_is_array (text : String) (v : JsValue)
    (h : parseJsonArray text = some v) : ∃ xs, v = JsValue.arr xs := by
  rw [parseJsonArray] at h
  cases hs : firstIdxOf '[' (cleanedText text) with
  | none => simp only [hs] at h; cases h
  | some s =>
    cases he : lastIdxOf ']' (cleanedText text) with
    | none => simp only [hs, he] at h; cases h
    | some e =>
      simp only [hs, he] at h
      obtain ⟨t, ht⟩ := firstIdxOf_drop '[' (cleanedText text) s hs
      rw [ht] at h
      cases hm : e + 1 - s with
      | zero => rw [hm, List.take_zero] at h; cases h
      | succ m =>
        rw [hm, List.take_succ_cons] at h
        exact jsonParse_lbracket _ v h

/-- C9 witness: the theorem applied to the concrete success on `"[1]"`. -/
theorem parseJsonArray_is_array_witness :
    ∃ xs, JsValue.arr [JsValue.num "1"] = JsValue.arr xs :=
  parseJsonArray_is_array "[1]" (JsValue.arr [JsValue.num "1"]) rfl

/-- C8 witness: with a first response consisting of one tool invocation
and no text, the driver is in the incomplete branch; the second-call
conversation and the parsed result come from the theorem. -/
theorem searchDriver_spec_witness :
    (searchSMEsWithWebSearch "find smes" [Block.toolUse "t1"] [Block.text "[]"]).1 =
      some [⟨"user", .plain "find smes"⟩,
            ⟨"assistant", .blocks [Block.toolUse "t1"]⟩,
            ⟨"user", .toolResults ["t1"]⟩] ∧
    (searchSMEsWithWebSearch "find smes" [Block.toolUse "t1"] [Block.text "[]"]).2 =
      some (JsValue.arr []) := by
  have h := (searchDriver_spec "find smes" [Block.toolUse "t1"] [Block.text "[]"]).2.2
  refine ⟨rfl, ?_⟩
  rw [h, if_pos (Or.inl ⟨Block.toolUse "t1", by simp [isToolUse]⟩)]
  rfl

end SMEPortal
